import Mathlib

/-!
Shallow embedding of the VDom repository (src/src/App.jsx): the item list,
the diff computation `getChangedIds`, and the step-playback state machine
(`startProcess`, `nextStep`, `previousStep`, `resetProcess`, the mutation
intake operations, and the auto-advance timer condition).
-/

namespace VDom

/-- One display record, as in the `items` state of App.jsx:
`{ id, name, selected }`. -/
structure Item where
  id : Nat
  name : String
  selected : Bool
deriving DecidableEq

/-- The diff snapshot held in the `diff` state of App.jsx:
`{ prev, next, changedIds }`. -/
structure Diff where
  prev : List Item
  next : List Item
  changedIds : List Nat
deriving DecidableEq

/-- The whole component state: one field per `useState` hook of
`VirtualDOMDemo` (App.jsx lines 14-32). -/
structure DemoState where
  items : List Item
  pendingItems : Option (List Item)
  showDiff : Bool
  step : Nat
  renderPhase : Bool
  commitPhase : Bool
  diff : Diff
  showCodeExample : Bool
  isAutoMode : Bool
  isProcessActive : Bool
deriving DecidableEq

/-- `MAX_STEP` constant of App.jsx line 34. -/
def MAX_STEP : Nat := 5

/-- JS `Map.has` on a map built with `new Map(l.map(item => [item.id, item]))`:
some entry of `l` has id `i`. -/
def mapHas (l : List Item) (i : Nat) : Bool :=
  l.any (fun it => it.id == i)

/-- JS `Map.get` on a map built with `new Map(l.map(item => [item.id, item]))`:
a later entry with the same key overwrites an earlier one, so the lookup
returns the LAST element of `l` carrying id `i`. -/
def mapGet (l : List Item) (i : Nat) : Option Item :=
  l.reverse.find? (fun it => it.id == i)

/-- `getChangedIds` of App.jsx lines 37-56. The first pass pushes, in order
over `next`, the ids that are absent from `prev` (added) or whose `selected`
flag differs from the `prev` entry (toggled); the second pass pushes, in order
over `prev`, the ids absent from `next` (removed). -/
def getChangedIds (prev next : List Item) : List Nat :=
  ((next.filter (fun item =>
      if mapHas prev item.id then
        match mapGet prev item.id with
        | some p => p.selected != item.selected
        | none => false
      else true)).map Item.id)
    ++ ((prev.filter (fun item => !(mapHas next item.id))).map Item.id)

/-- `startProcess` of App.jsx lines 59-68: store the diff, show it, enter
step 1 of the render phase, mark the process active, and stage `diffObj.next`
as the pending item list. `items` is deliberately not touched. -/
def startProcess (diffObj : Diff) (s : DemoState) : DemoState :=
  { s with diff := diffObj, showDiff := true, step := 1,
           renderPhase := true, commitPhase := false,
           isProcessActive := true, pendingItems := some diffObj.next }

/-- `resetProcess` of App.jsx lines 107-114: back to step 0, inactive, both
phase flags off, diff hidden, pending items dropped. `items` and `diff` are
not touched. -/
def resetProcess (s : DemoState) : DemoState :=
  { s with showDiff := false, commitPhase := false, renderPhase := false,
           step := 0, isProcessActive := false, pendingItems := none }

/-- `nextStep` of App.jsx lines 70-88. The candidate step is `step + 1`; when
it equals 4 the pending items are committed to `items` (JS guard
`if (pendingItems)`: only a non-null value is committed) and cleared, and the
phase flags flip; when it exceeds `MAX_STEP` the whole process resets (the
updater returns 0, which `resetProcess` already set). -/
def nextStep (s : DemoState) : DemoState :=
  let next := s.step + 1
  let s1 :=
    if next = 4 then
      { s with renderPhase := false, commitPhase := true,
               items := s.pendingItems.getD s.items,
               pendingItems := none }
    else s
  if next > MAX_STEP then resetProcess s1 else { s1 with step := next }

/-- `previousStep` of App.jsx lines 90-105. The new step is `max 1 (step - 1)`
(in JS, `Math.max(1, prev - 1)`; at step 0 the JS value is `max 1 (-1) = 1`
and the Nat value `max 1 0 = 1` agree). When the call leaves step ≥ 4 for
step ≤ 3, the commit is rolled back: `items` is restored to `diff.prev` and
the pending items to `diff.next`. The JS guard `if (diff.prev && diff.next)`
is unconditionally true here because JS arrays, empty ones included, are
truthy, and `diff` always holds two arrays. -/
def previousStep (s : DemoState) : DemoState :=
  let next := max 1 (s.step - 1)
  let s1 :=
    if 4 ≤ s.step ∧ next ≤ 3 then
      { s with commitPhase := false, renderPhase := true,
               items := s.diff.prev, pendingItems := some s.diff.next }
    else s
  { s1 with step := next }

/-- `toggleItem` of App.jsx lines 125-136: no-op while the process is active;
otherwise flip `selected` on the matching id and start a playback cycle over
the resulting diff. -/
def toggleItem (id : Nat) (s : DemoState) : DemoState :=
  if s.isProcessActive then s
  else
    let nextItems := s.items.map (fun item =>
      if item.id == id then { item with selected := !item.selected } else item)
    startProcess { prev := s.items, next := nextItems,
                   changedIds := getChangedIds s.items nextItems } s

/-- `addItem` of App.jsx lines 148-162: no-op while the process is active;
otherwise append a record and start a playback cycle. The fresh id the code
draws from `Date.now()` is taken as the parameter `newId`. -/
def addItem (newId : Nat) (s : DemoState) : DemoState :=
  if s.isProcessActive then s
  else
    let newItem : Item :=
      { id := newId, name := "Item " ++ toString (s.items.length + 1),
        selected := false }
    let nextItems := s.items ++ [newItem]
    startProcess { prev := s.items, next := nextItems,
                   changedIds := getChangedIds s.items nextItems } s

/-- `removeItem` of App.jsx lines 164-173: no-op while the process is active;
otherwise drop every record with the given id and start a playback cycle. -/
def removeItem (id : Nat) (s : DemoState) : DemoState :=
  if s.isProcessActive then s
  else
    let nextItems := s.items.filter (fun item => item.id != id)
    startProcess { prev := s.items, next := nextItems,
                   changedIds := getChangedIds s.items nextItems } s

/-- Mode switch button of App.jsx line 277: `setIsAutoMode(prev => !prev)`. -/
def toggleAutoMode (s : DemoState) : DemoState :=
  { s with isAutoMode := !s.isAutoMode }

/-- The Next Step button (App.jsx line 288) as invocable from the UI: its
`disabled` attribute (line 290) is
`!isProcessActive || isAutoMode || step === 0 || step > MAX_STEP`, and a
disabled button never fires its click handler, so this is the public advance
operation. -/
def nextStepClick (s : DemoState) : DemoState :=
  if s.isProcessActive = false ∨ s.isAutoMode = true ∨ s.step = 0 ∨ s.step > MAX_STEP
  then s else nextStep s

/-- The Previous Step button (App.jsx line 295) as invocable from the UI: its
`disabled` attribute (line 297) is `!isProcessActive || isAutoMode || step <= 1`. -/
def previousStepClick (s : DemoState) : DemoState :=
  if s.isProcessActive = false ∨ s.isAutoMode = true ∨ s.step ≤ 1
  then s else previousStep s

/-- Delay constant of the auto-advance timer, App.jsx line 120. -/
def AUTO_DELAY : Nat := 800

/-- The auto-advance effect of App.jsx lines 117-122: after every change of
`step`, `isAutoMode` or `isProcessActive`, a `nextStep` timer of `AUTO_DELAY`
time units is pending exactly when the process is active, the mode is auto,
and `0 < step ≤ MAX_STEP`; outside that window (and on every re-run of the
effect) the previous timer is cleared. -/
def autoTimer (s : DemoState) : Option Nat :=
  if s.isProcessActive = false ∨ s.isAutoMode = false then none
  else if s.step = 0 ∨ s.step > MAX_STEP then none
  else some AUTO_DELAY

/-- The initial `items` seed, App.jsx lines 14-18. -/
def initialItems : List Item :=
  [{ id := 1, name := "Apple", selected := false },
   { id := 2, name := "Banana", selected := false },
   { id := 3, name := "Cherry", selected := false }]

/-- The initial component state, App.jsx lines 14-32. -/
def initialState : DemoState :=
  { items := initialItems, pendingItems := none, showDiff := false, step := 0,
    renderPhase := false, commitPhase := false,
    diff := { prev := initialItems, next := initialItems, changedIds := [] },
    showCodeExample := false, isAutoMode := true, isProcessActive := false }

/-- The invariant of the spec: the process is inactive exactly when the step
counter is 0. -/
def StepInvariant (s : DemoState) : Prop :=
  s.isProcessActive = false ↔ s.step = 0

/-- Concrete diff produced by `toggleItem 1` on the initial items: Apple's
`selected` flag flips. -/
def demoDiff : Diff :=
  { prev := initialItems,
    next := [{ id := 1, name := "Apple", selected := true },
             { id := 2, name := "Banana", selected := false },
             { id := 3, name := "Cherry", selected := false }],
    changedIds := [1] }

/-- Concrete state at step 1 of a playback of `demoDiff`. -/
def demoActive : DemoState := startProcess demoDiff initialState

/-- Concrete state at step 3 of a playback of `demoDiff`. -/
def demoStep3 : DemoState := nextStep (nextStep demoActive)

/-- Concrete state at step 4 of a playback of `demoDiff`. -/
def demoStep4 : DemoState := nextStep demoStep3

/-! ### Helper lemmas about the JS-map lookups -/

theorem mapHas_iff (l : List Item) (i : Nat) :
    mapHas l i = true ↔ i ∈ l.map Item.id := by
  simp only [mapHas, List.any_eq_true, List.mem_map, beq_iff_eq]

theorem mapGet_mem (l : List Item) (i : Nat) (p : Item)
    (h : mapGet l i = some p) : p ∈ l ∧ p.id = i := by
  refine ⟨?_, ?_⟩
  · have hm := List.mem_of_find?_eq_some h
    simpa using hm
  · have hp := List.find?_some h
    simpa using hp

theorem mapGet_of_has (l : List Item) (i : Nat) (h : mapHas l i = true) :
    ∃ p, mapGet l i = some p := by
  have hs : (l.reverse.find? (fun it => it.id == i)).isSome := by
    rw [List.find?_isSome]
    rw [mapHas_iff] at h
    obtain ⟨a, ha, hai⟩ := List.mem_map.mp h
    exact ⟨a, by simpa using ha, by simpa using hai⟩
  exact Option.isSome_iff_exists.mp hs

theorem mapGet_unique (l : List Item) (i : Nat) (p : Item)
    (hnd : (l.map Item.id).Nodup) (hp : p ∈ l) (hi : p.id = i) :
    mapGet l i = some p := by
  obtain ⟨q, hq⟩ := mapGet_of_has l i
    ((mapHas_iff l i).mpr (List.mem_map.mpr ⟨p, hp, hi⟩))
  obtain ⟨hqm, hqi⟩ := mapGet_mem l i q hq
  have hqp : q = p := List.inj_on_of_nodup_map hnd hqm hp (by rw [hqi, hi])
  rw [hq, hqp]

/-- The first-pass filter predicate of `getChangedIds`, characterised for a
list with unique ids: an element of `next` passes exactly when its id is
absent from `prv`, or present with a differing `selected` flag. -/
theorem changed_pred_iff (prv : List Item) (q : Item)
    (hnd : (prv.map Item.id).Nodup) :
    ((if mapHas prv q.id then
        match mapGet prv q.id with
        | some p => p.selected != q.selected
        | none => false
      else true) = true)
    ↔ (q.id ∉ prv.map Item.id
        ∨ ∃ p ∈ prv, p.id = q.id ∧ p.selected ≠ q.selected) := by
  by_cases hh : mapHas prv q.id
  · obtain ⟨p, hget⟩ := mapGet_of_has prv q.id hh
    obtain ⟨hpm, hpi⟩ := mapGet_mem prv q.id p hget
    rw [if_pos hh, hget]
    constructor
    · intro hsel
      exact Or.inr ⟨p, hpm, hpi, by simpa using hsel⟩
    · rintro (habs | ⟨r, hrm, hri, hrsel⟩)
      · exact absurd ((mapHas_iff prv q.id).mp hh) habs
      · have hrp : r = p :=
          List.inj_on_of_nodup_map hnd hrm hpm (by rw [hri, hpi])
        subst hrp
        simpa using hrsel
  · rw [if_neg hh]
    simp only [true_iff]
    exact Or.inl (fun hmem => hh ((mapHas_iff prv q.id).mpr hmem))

/-- C1: for lists with unique ids, `getChangedIds previous next` contains an
id exactly when that id was added (in `next` only), toggled (in both with
differing `selected`), or removed (in `previous` only); consequently every
returned id occurs in `previous` or in `next`. -/
theorem getChangedIds_spec (prev next : List Item) (i : Nat)
    (hp : (prev.map Item.id).Nodup) (hn : (next.map Item.id).Nodup) :
    (i ∈ getChangedIds prev next ↔
      ((i ∈ next.map Item.id ∧ i ∉ prev.map Item.id)
        ∨ (∃ p ∈ prev, ∃ q ∈ next, p.id = i ∧ q.id = i ∧ p.selected ≠ q.selected)
        ∨ (i ∈ prev.map Item.id ∧ i ∉ next.map Item.id)))
    ∧ (i ∈ getChangedIds prev next → i ∈ prev.map Item.id ∨ i ∈ next.map Item.id) := by
  have hmem : i ∈ getChangedIds prev next ↔
      (∃ q ∈ next, (if mapHas prev q.id then
          match mapGet prev q.id with
          | some p => p.selected != q.selected
          | none => false
        else true) = true ∧ q.id = i)
      ∨ (∃ p ∈ prev, mapHas next p.id = false ∧ p.id = i) := by
    simp only [getChangedIds, List.mem_append, List.mem_map, List.mem_filter,
      Bool.not_eq_true']
    constructor
    · rintro (⟨q, ⟨hq, hpred⟩, hqi⟩ | ⟨p, ⟨hpm, hhas⟩, hpi⟩)
      · exact Or.inl ⟨q, hq, hpred, hqi⟩
      · exact Or.inr ⟨p, hpm, hhas, hpi⟩
    · rintro (⟨q, hq, hpred, hqi⟩ | ⟨p, hpm, hhas, hpi⟩)
      · exact Or.inl ⟨q, ⟨hq, hpred⟩, hqi⟩
      · exact Or.inr ⟨p, ⟨hpm, hhas⟩, hpi⟩
  have hiff : i ∈ getChangedIds prev next ↔
      ((i ∈ next.map Item.id ∧ i ∉ prev.map Item.id)
        ∨ (∃ p ∈ prev, ∃ q ∈ next, p.id = i ∧ q.id = i ∧ p.selected ≠ q.selected)
        ∨ (i ∈ prev.map Item.id ∧ i ∉ next.map Item.id)) := by
    rw [hmem]
    constructor
    · rintro (⟨q, hq, hpred, hqi⟩ | ⟨p, hpm, hhas, hpi⟩)
      · rcases (changed_pred_iff prev q hp).mp hpred with habs | ⟨p, hpm, hpi, hsel⟩
        · exact Or.inl ⟨List.mem_map.mpr ⟨q, hq, hqi⟩, by rwa [hqi] at habs⟩
        · exact Or.inr (Or.inl ⟨p, hpm, q, hq, by rw [hpi, hqi], hqi, hsel⟩)
      · refine Or.inr (Or.inr ⟨List.mem_map.mpr ⟨p, hpm, hpi⟩, fun hinn => ?_⟩)
        have : mapHas next p.id = true := (mapHas_iff next p.id).mpr (by rwa [hpi])
        rw [this] at hhas
        exact absurd hhas (by simp)
    · rintro (⟨hin, hnotp⟩ | ⟨p, hpm, q, hq, hpi, hqi, hsel⟩ | ⟨hip, hnotn⟩)
      · obtain ⟨q, hq, hqi⟩ := List.mem_map.mp hin
        refine Or.inl ⟨q, hq, (changed_pred_iff prev q hp).mpr (Or.inl ?_), hqi⟩
        rwa [hqi]
      · refine Or.inl ⟨q, hq, (changed_pred_iff prev q hp).mpr
          (Or.inr ⟨p, hpm, by rw [hpi, hqi], hsel⟩), hqi⟩
      · obtain ⟨p, hpm, hpi⟩ := List.mem_map.mp hip
        refine Or.inr ⟨p, hpm, ?_, hpi⟩
        rw [← Bool.not_eq_true]
        intro hhas
        exact hnotn (by rw [← hpi]; exact (mapHas_iff next p.id).mp hhas)
  refine ⟨hiff, fun hin => ?_⟩
  rcases hiff.mp hin with ⟨hnext, _⟩ | ⟨p, hpm, q, hq, hpi, _, _⟩ | ⟨hprev, _⟩
  · exact Or.inr hnext
  · exact Or.inl (List.mem_map.mpr ⟨p, hpm, hpi⟩)
  · exact Or.inl hprev

/-- C2: `nextStep` increments the step by one while it stays in range; when
the new step equals 4 the pending list is committed to `items` and cleared;
at any other new step `items` is untouched (forward playback changes the
visible list only at the 3→4 commit); and when the new step exceeds
`MAX_STEP` the call is exactly a full `resetProcess` back to step 0. -/
theorem nextStep_spec (s : DemoState) :
    (s.step + 1 ≤ MAX_STEP → (nextStep s).step = s.step + 1)
    ∧ (∀ p, s.pendingItems = some p → s.step + 1 = 4 →
        (nextStep s).step = 4 ∧ (nextStep s).items = p
          ∧ (nextStep s).pendingItems = none)
    ∧ (s.step + 1 ≠ 4 → (nextStep s).items = s.items)
    ∧ (s.step + 1 > MAX_STEP → nextStep s = resetProcess s) := by
  refine ⟨?_, ?_, ?_, ?_⟩
  · intro h
    simp only [MAX_STEP] at h
    have h5 : ¬(5 < s.step + 1) := by omega
    by_cases h4 : s.step + 1 = 4 <;> simp [nextStep, MAX_STEP, h4, h5]
  · intro p hp h4
    simp [nextStep, MAX_STEP, h4, hp]
  · intro h4
    by_cases h5 : 5 < s.step + 1 <;>
      simp [nextStep, resetProcess, MAX_STEP, h4, h5]
  · intro h5
    simp only [MAX_STEP, gt_iff_lt] at h5
    have h4 : ¬(s.step + 1 = 4) := by omega
    simp [nextStep, MAX_STEP, h4, h5]

/-- C3: `previousStep` sets the step to `max 1 (step - 1)`, so the result is
never below 1 (Idle is unreachable by retreating); and whenever the call
moves from step ≥ 4 to step ≤ 3 it restores `items` to the stored diff's
`prev` and the pending list to the diff's `next`. -/
theorem previousStep_spec (s : DemoState) :
    (previousStep s).step = max 1 (s.step - 1)
    ∧ 1 ≤ (previousStep s).step
    ∧ (4 ≤ s.step → max 1 (s.step - 1) ≤ 3 →
        (previousStep s).items = s.diff.prev
          ∧ (previousStep s).pendingItems = some s.diff.next) := by
  have hst : (previousStep s).step = max 1 (s.step - 1) := by
    by_cases hc : 4 ≤ s.step ∧ max 1 (s.step - 1) ≤ 3 <;>
      simp [previousStep, hc]
  refine ⟨hst, by rw [hst]; exact Nat.le_max_left _ _, ?_⟩
  intro h4 h3
  simp [previousStep, h4, h3]

/-- C4: every mutation operation is a silent no-op while the process is
active: the whole component state, the item list and playback fields
included, is returned unchanged. -/
theorem mutation_noop_when_active (s : DemoState) (i newId : Nat)
    (h : s.isProcessActive = true) :
    toggleItem i s = s ∧ addItem newId s = s ∧ removeItem i s = s := by
  simp [toggleItem, addItem, removeItem, h]

/-- C5: starting from Idle, `startProcess cs` followed by five `nextStep`
calls leaves `items` equal to `cs.next` and the playback state back at Idle:
step 0, inactive, pending list cleared. -/
theorem full_cycle (s : DemoState) (cs : Diff)
    (hstep : s.step = 0) (hact : s.isProcessActive = false) :
    (let sf := nextStep (nextStep (nextStep (nextStep
        (nextStep (startProcess cs s)))))
     sf.items = cs.next ∧ sf.step = 0 ∧ sf.isProcessActive = false
       ∧ sf.pendingItems = none) := by
  simp [startProcess, nextStep, resetProcess, MAX_STEP]

/-- C6: for a diff whose `prev` equals the current item list, starting from
Idle, `startProcess cs`, three `nextStep` calls, then three `previousStep`
calls return `items` to its pre-start value and leave the playback at step 1
with pending list `cs.next`. -/
theorem round_trip (s : DemoState) (cs : Diff)
    (hprev : cs.prev = s.items) (hstep : s.step = 0)
    (hact : s.isProcessActive = false) :
    (let sf := previousStep (previousStep (previousStep (nextStep
        (nextStep (nextStep (startProcess cs s))))))
     sf.items = s.items ∧ sf.step = 1 ∧ sf.pendingItems = some cs.next) := by
  simp [startProcess, nextStep, previousStep, resetProcess, MAX_STEP, hprev]

/-- C7: `StepInvariant` holds initially and is preserved by every public
operation. Advance and retreat are taken as the UI exposes them: their
buttons carry `disabled` guards (App.jsx lines 290 and 297) and a disabled
button never fires, so `nextStepClick` and `previousStepClick` are the
invocable forms. Mutations, reset and the mode switch are unguarded in the
UI and modelled directly. -/
theorem invariant_preserved :
    StepInvariant initialState
    ∧ (∀ s i, StepInvariant s → StepInvariant (toggleItem i s))
    ∧ (∀ s n, StepInvariant s → StepInvariant (addItem n s))
    ∧ (∀ s i, StepInvariant s → StepInvariant (removeItem i s))
    ∧ (∀ s, StepInvariant s → StepInvariant (nextStepClick s))
    ∧ (∀ s, StepInvariant s → StepInvariant (previousStepClick s))
    ∧ (∀ s, StepInvariant s → StepInvariant (resetProcess s))
    ∧ (∀ s, StepInvariant s → StepInvariant (toggleAutoMode s)) := by
  refine ⟨by simp [StepInvariant, initialState], ?_, ?_, ?_, ?_, ?_, ?_, ?_⟩
  · intro s i h
    by_cases ha : s.isProcessActive
    · simpa [toggleItem, ha] using h
    · simp [toggleItem, startProcess, StepInvariant, ha]
  · intro s n h
    by_cases ha : s.isProcessActive
    · simpa [addItem, ha] using h
    · simp [addItem, startProcess, StepInvariant, ha]
  · intro s i h
    by_cases ha : s.isProcessActive
    · simpa [removeItem, ha] using h
    · simp [removeItem, startProcess, StepInvariant, ha]
  · intro s h
    by_cases hg : (s.isProcessActive = false ∨ s.isAutoMode = true
        ∨ s.step = 0 ∨ s.step > MAX_STEP)
    · simpa [nextStepClick, hg] using h
    · rw [nextStepClick, if_neg hg]
      push_neg at hg
      obtain ⟨ha, -, h0, h5⟩ := hg
      replace ha : s.isProcessActive = true := by simpa using ha
      simp only [MAX_STEP] at h5
      by_cases h6 : 5 < s.step + 1
      · have h4 : ¬(s.step + 1 = 4) := by omega
        simp [nextStep, MAX_STEP, h4, h6, resetProcess, StepInvariant]
      · by_cases h4 : s.step + 1 = 4 <;>
          simp [nextStep, MAX_STEP, h4, h6, StepInvariant, ha]
  · intro s h
    by_cases hg : (s.isProcessActive = false ∨ s.isAutoMode = true ∨ s.step ≤ 1)
    · simpa [previousStepClick, hg] using h
    · rw [previousStepClick, if_neg hg]
      push_neg at hg
      obtain ⟨ha, -, h1⟩ := hg
      replace ha : s.isProcessActive = true := by simpa using ha
      have hact2 : (previousStep s).isProcessActive = true := by
        simp only [previousStep]
        split <;> simp [ha]
      have hstep2 : ¬((previousStep s).step = 0) := by
        simp only [previousStep]
        omega
      rw [StepInvariant, hact2]
      simp [hstep2]
  · intro s h
    simp [resetProcess, StepInvariant]
  · intro s h
    simpa [toggleAutoMode, StepInvariant] using h

/-- C8: `resetProcess` is total on states and returns the controller to Idle
(step 0, inactive, pending cleared) while leaving both the stored diff and
the item list untouched, so the last computed diff stays readable. -/
theorem resetProcess_spec (s : DemoState) :
    (resetProcess s).step = 0 ∧ (resetProcess s).isProcessActive = false
    ∧ (resetProcess s).pendingItems = none
    ∧ (resetProcess s).diff = s.diff
    ∧ (resetProcess s).items = s.items := by
  simp [resetProcess]

/-- C9: in auto mode a `startProcess` call schedules an `AUTO_DELAY` (800)
timer, and after each of the five automatic `nextStep` firings the timer is
rescheduled until the cycle completes at Idle with `items = cs.next` and no
timer pending — so one start call drives the whole cycle. Switching an
auto-mode state to manual, or resetting, leaves no timer pending. -/
theorem auto_mode_spec (s : DemoState) (cs : Diff)
    (hmode : s.isAutoMode = true) :
    autoTimer (startProcess cs s) = some AUTO_DELAY
    ∧ autoTimer (nextStep (startProcess cs s)) = some AUTO_DELAY
    ∧ autoTimer (nextStep (nextStep (startProcess cs s))) = some AUTO_DELAY
    ∧ autoTimer (nextStep (nextStep (nextStep (startProcess cs s))))
        = some AUTO_DELAY
    ∧ autoTimer (nextStep (nextStep (nextStep (nextStep
        (startProcess cs s))))) = some AUTO_DELAY
    ∧ (let sf := nextStep (nextStep (nextStep (nextStep
          (nextStep (startProcess cs s)))))
       sf.step = 0 ∧ sf.isProcessActive = false ∧ sf.items = cs.next
         ∧ autoTimer sf = none)
    ∧ (∀ t : DemoState, t.isAutoMode = true →
        autoTimer (toggleAutoMode t) = none)
    ∧ (∀ t : DemoState, autoTimer (resetProcess t) = none) := by
  refine ⟨?_, ?_, ?_, ?_, ?_, ?_, ?_, ?_⟩ <;>
    simp [autoTimer, startProcess, nextStep, resetProcess, toggleAutoMode,
      MAX_STEP, AUTO_DELAY, hmode]
  intro t ht
  simp [ht]

/-- The diff of a list (with unique ids) against itself is empty: every id is
present on both sides with an unchanged `selected` flag. -/
theorem getChangedIds_self (l : List Item)
    (hnd : (l.map Item.id).Nodup) : getChangedIds l l = [] := by
  rw [getChangedIds]
  have h1 : (l.filter (fun item =>
      if mapHas l item.id then
        match mapGet l item.id with
        | some p => p.selected != item.selected
        | none => false
      else true)) = [] := by
    rw [List.filter_eq_nil_iff]
    intro a ha
    have hhas : mapHas l a.id = true :=
      (mapHas_iff l a.id).mpr (List.mem_map.mpr ⟨a, ha, rfl⟩)
    rw [if_pos hhas, mapGet_unique l a.id a hnd ha rfl]
    simp
  have h2 : (l.filter (fun item => !(mapHas l item.id))) = [] := by
    rw [List.filter_eq_nil_iff]
    intro a ha
    simp [(mapHas_iff l a.id).mpr (List.mem_map.mpr ⟨a, ha, rfl⟩)]
  rw [h1, h2]
  rfl

/-- Toggling an id that no element of the list carries maps every element to
itself. -/
theorem toggle_absent (l : List Item) (i : Nat)
    (h : i ∉ l.map Item.id) :
    (l.map (fun item =>
      if item.id == i then { item with selected := !item.selected }
      else item)) = l := by
  have hcong : ∀ a ∈ l,
      (if a.id == i then { a with selected := !a.selected } else a) = a := by
    intro a ha
    have hne : ¬(a.id = i) := fun he => h (List.mem_map.mpr ⟨a, ha, he⟩)
    simp [hne]
  rw [List.map_congr_left hcong, List.map_id']

/-- Filtering out an id that no element of the list carries keeps every
element. -/
theorem filter_absent (l : List Item) (i : Nat)
    (h : i ∉ l.map Item.id) :
    (l.filter (fun item => item.id != i)) = l := by
  rw [List.filter_eq_self]
  intro a ha
  have hne : ¬(a.id = i) := fun he => h (List.mem_map.mpr ⟨a, ha, he⟩)
  simpa using hne

/-- C10: with the controller idle, `toggleItem` or `removeItem` on an id
absent from the (unique-id) item list still starts a playback cycle — step
becomes 1 and the process becomes active — while the stored diff is an
identity diff: its `next` equals the current item list and its `changedIds`
is empty. -/
theorem absent_id_identity_cycle (s : DemoState) (i : Nat)
    (hact : s.isProcessActive = false)
    (habs : i ∉ s.items.map Item.id)
    (hnd : (s.items.map Item.id).Nodup) :
    ((toggleItem i s).step = 1 ∧ (toggleItem i s).isProcessActive = true
      ∧ (toggleItem i s).diff.next = s.items
      ∧ (toggleItem i s).diff.changedIds = [])
    ∧ ((removeItem i s).step = 1 ∧ (removeItem i s).isProcessActive = true
      ∧ (removeItem i s).diff.next = s.items
      ∧ (removeItem i s).diff.changedIds = []) := by
  have ht := toggle_absent s.items i habs
  have hf := filter_absent s.items i habs
  have hc := getChangedIds_self s.items hnd
  simp only [beq_iff_eq] at ht
  simp [toggleItem, removeItem, startProcess, hact, ht, hf, hc]

/-! ### Concrete witnesses -/

/-- Witness for C1 at the initial items and the toggled-Apple diff. -/
theorem getChangedIds_spec_witness :
    1 ∈ initialItems.map Item.id ∨ 1 ∈ demoDiff.next.map Item.id :=
  (getChangedIds_spec initialItems demoDiff.next 1 (by decide) (by decide)).2
    (by decide)

/-- Witness for C2 on the concrete step-3 state: the 3→4 advance commits the
pending list. -/
theorem nextStep_spec_witness :
    (nextStep demoStep3).step = 4 ∧ (nextStep demoStep3).items = demoDiff.next
      ∧ (nextStep demoStep3).pendingItems = none :=
  (nextStep_spec demoStep3).2.1 demoDiff.next (by decide) (by decide)

/-- Witness for C3 on the concrete step-4 state: the 4→3 retreat rolls the
commit back. -/
theorem previousStep_spec_witness :
    (previousStep demoStep4).items = demoStep4.diff.prev
      ∧ (previousStep demoStep4).pendingItems = some demoStep4.diff.next :=
  (previousStep_spec demoStep4).2.2 (by decide) (by decide)

/-- Witness for C4 on the concrete active state. -/
theorem mutation_noop_when_active_witness :
    toggleItem 1 demoActive = demoActive ∧ addItem 99 demoActive = demoActive
      ∧ removeItem 1 demoActive = demoActive :=
  mutation_noop_when_active demoActive 1 99 (by decide)

/-- Witness for C5 on the initial state and the toggled-Apple diff. -/
theorem full_cycle_witness :
    (let sf := nextStep (nextStep (nextStep (nextStep
        (nextStep (startProcess demoDiff initialState)))))
     sf.items = demoDiff.next ∧ sf.step = 0 ∧ sf.isProcessActive = false
       ∧ sf.pendingItems = none) :=
  full_cycle initialState demoDiff rfl rfl

/-- Witness for C6 on the initial state and the toggled-Apple diff. -/
theorem round_trip_witness :
    (let sf := previousStep (previousStep (previousStep (nextStep
        (nextStep (nextStep (startProcess demoDiff initialState))))))
     sf.items = initialState.items ∧ sf.step = 1
       ∧ sf.pendingItems = some demoDiff.next) :=
  round_trip initialState demoDiff rfl rfl rfl

/-- Witness for C7: the invariant propagates from the initial state through a
mutation and through a reset. -/
theorem invariant_preserved_witness :
    StepInvariant (toggleItem 1 initialState)
      ∧ StepInvariant (resetProcess initialState) := by
  have h := invariant_preserved
  exact ⟨h.2.1 initialState 1 h.1, h.2.2.2.2.2.2.1 initialState h.1⟩

/-- Witness for C9 on the initial (auto-mode) state. -/
theorem auto_mode_spec_witness :
    autoTimer (startProcess demoDiff initialState) = some AUTO_DELAY
      ∧ autoTimer (toggleAutoMode demoActive) = none
      ∧ autoTimer (resetProcess demoActive) = none := by
  have h := auto_mode_spec initialState demoDiff rfl
  exact ⟨h.1, h.2.2.2.2.2.2.1 demoActive rfl, h.2.2.2.2.2.2.2 demoActive⟩

/-- Witness for C10: the absent id 99 on the initial state. -/
theorem absent_id_identity_cycle_witness :
    (toggleItem 99 initialState).diff.changedIds = []
      ∧ (removeItem 99 initialState).diff.changedIds = [] := by
  have h := absent_id_identity_cycle initialState 99 rfl (by decide) (by decide)
  exact ⟨h.1.2.2.2, h.2.2.2.2⟩

end VDom
